import Mathlib

/-!
Shallow embedding of the `nordic_wifi_audio_tone_test` scripts
(`scripts/tone_udp_tx.py`, `scripts/tone_udp_rx.py`).

Bytes are modelled as `Nat` (each byte a value below 256), byte strings as
`List Nat`, and Python's unbounded integers as `Nat`/`Int`.  Python's
`x & 0xFFFFFFFF` on a possibly negative `x` equals the mathematical
`x mod 2^32`, which for `Int` in Lean is the (nonnegative) `%` with a
positive modulus.  Fallible operations (`struct.pack` range errors, the
undersized-packet check) are modelled with `Option`/`Except`.
-/

namespace ToneUdp

/-- `2^32`, the modulus of the sequence / sample-counter / timestamp fields. -/
def U32MOD : Nat := 4294967296

/-- Receiver statistics state (`Stats.__init__` in `tone_udp_rx.py`).
The monotonic-clock readings are modelled as `Nat` ticks.  The
`intervals` deque is appended to in `update` but never read anywhere in
the program, so it is omitted from the state. -/
structure Stats where
  start_time : Nat
  last_report : Nat
  total_received : Nat
  received_since_last_report : Nat
  lost_packets : Nat
  last_seq : Option Nat
  total_bytes : Nat
deriving DecidableEq

/-- Fresh `Stats` created at monotonic time `now` (`Stats.__init__`). -/
def Stats.init (now : Nat) : Stats :=
  { start_time := now
    last_report := now
    total_received := 0
    received_since_last_report := 0
    lost_packets := 0
    last_seq := none
    total_bytes := 0 }

/-- `Stats.update(seq, payload_len)` from `tone_udp_rx.py`:
if a previous sequence number is recorded, compute
`expected = (last_seq + 1) & 0xFFFFFFFF` and, when `seq != expected`, add
`gap = (seq - expected) & 0xFFFFFFFF` to `lost_packets`; in every case set
`last_seq = seq`, increment `total_received` and
`received_since_last_report`, and add `payload_len` to `total_bytes`. -/
def Stats.update (s : Stats) (seq payload_len : Nat) : Stats :=
  let s' :=
    match s.last_seq with
    | none => s
    | some ls =>
      let expected := (ls + 1) % U32MOD
      if seq ≠ expected then
        { s with lost_packets :=
            s.lost_packets + (((seq : Int) - (expected : Int)) % (U32MOD : Int)).toNat }
      else s
  { s' with
    last_seq := some seq
    total_received := s'.total_received + 1
    received_since_last_report := s'.received_since_last_report + 1
    total_bytes := s'.total_bytes + payload_len }

/-- `Stats.report(...)` state effect: the logged bitrate / packet-rate
derivations read the counters but mutate nothing; the method then zeroes
`received_since_last_report` and records the report time. -/
def Stats.report (s : Stats) (now : Nat) : Stats :=
  { s with received_since_last_report := 0, last_report := now }

/-- Fold `Stats.update` over a list of `(seq, payload_len)` packets. -/
def Stats.runUpdates (s : Stats) (pkts : List (Nat × Nat)) : Stats :=
  pkts.foldl (fun st p => st.update p.1 p.2) s

/-- `PlaybackStats` from `tone_udp_rx.py` (the lock only guards the two
counters; the state itself is the pair). -/
structure PlaybackStats where
  underflows : Nat
  max_depth : Nat
deriving DecidableEq

/-- `PlaybackStats.record_underflow`. -/
def PlaybackStats.record_underflow (p : PlaybackStats) : PlaybackStats :=
  { p with underflows := p.underflows + 1 }

/-- `PlaybackStats.observe_depth(depth)`. -/
def PlaybackStats.observe_depth (p : PlaybackStats) (depth : Nat) : PlaybackStats :=
  if depth > p.max_depth then { p with max_depth := depth } else p

/-- `PlaybackStats.snapshot()`: returns the current `(underflows, max_depth)`
pair and zeroes both counters. -/
def PlaybackStats.snapshot (p : PlaybackStats) : (Nat × Nat) × PlaybackStats :=
  ((p.underflows, p.max_depth), { underflows := 0, max_depth := 0 })

/-! ## Packet codec

`HEADER_FMT = ">III"`: three big-endian unsigned 32-bit fields
(sequence, sample counter, timestamp in microseconds), `HEADER_LEN = 12`. -/

/-- The four big-endian bytes of a u32 value. -/
def u32be (n : Nat) : List Nat :=
  [n / 16777216 % 256, n / 65536 % 256, n / 256 % 256, n % 256]

/-- One big-endian u32, as `struct.pack(">I", n)`: four bytes on success,
`none` when `n` is out of the `u32` range (where CPython raises
`struct.error`). -/
def packU32 (n : Nat) : Option (List Nat) :=
  if n < U32MOD then some (u32be n) else none

/-- Big-endian u32 from four bytes, as `struct.unpack(">I", bs)`. -/
def unpackU32 (bs : List Nat) : Nat :=
  match bs with
  | [a, b, c, d] => a * 16777216 + b * 65536 + c * 256 + d
  | _ => 0

/-- `struct.pack(HEADER_FMT, seq, sample_counter, timestamp_us)`. -/
def packHeader (seq ctr ts : Nat) : Option (List Nat) := do
  let a ← packU32 seq
  let b ← packU32 ctr
  let c ← packU32 ts
  pure (a ++ b ++ c)

/-- Sender-side packet build (`header + pcm_payload` in `tone_udp_tx.py`). -/
def encode (seq ctr ts : Nat) (payload : List Nat) : Option (List Nat) := do
  let h ← packHeader seq ctr ts
  pure (h ++ payload)

/-- `timestamp_us = int(time.time_ns() // 1000)` in the sender's send loop:
wall-clock nanoseconds since the Unix epoch, floor-divided by 1000. -/
def timestampUs (t_ns : Nat) : Nat := t_ns / 1000

/-- Decode failure taxonomy of the receiver: the only failure is the
undersized-packet check (`len(packet) <= HEADER_LEN`); a 12-byte header
slice always unpacks. -/
inductive FormatError where
  | undersized
deriving DecidableEq

/-- Receiver-side datagram split (`tone_udp_rx.py` main loop): packets of
length `≤ 12` are rejected as undersized; otherwise the first 12 bytes
are unpacked as the three header fields and the rest is the payload. -/
def decode (pkt : List Nat) : Except FormatError (Nat × Nat × Nat × List Nat) :=
  if pkt.length ≤ 12 then
    .error .undersized
  else
    .ok (unpackU32 (pkt.take 4),
         unpackU32 ((pkt.drop 4).take 4),
         unpackU32 ((pkt.drop 8).take 4),
         pkt.drop 12)

/-- One iteration of the receive loop's per-datagram statistics handling:
an undersized datagram is skipped (`continue`) with the tracker untouched,
otherwise `stats.update(seq, len(payload))` runs. -/
def processPacket (st : Stats) (pkt : List Nat) : Stats :=
  match decode pkt with
  | .error _ => st
  | .ok (seq, _, _, payload) => st.update seq payload.length

/-! ## Playback callback (`audio_thread.callback` in `tone_udp_rx.py`)

The jitter buffer `play_queue` is a FIFO of byte chunks; `pending` is the
callback's private accumulator.  The callback computes
`needed_bytes = frames * bytes_per_frame`, drains chunks with
`get_nowait()` until `pending` holds at least `needed_bytes`, and on
queue exhaustion pads the shortfall with zero bytes and records exactly
one underflow; it then copies the first `needed_bytes` of `pending` into
the output and deletes them from `pending`. -/

/-- The callback's fill loop: returns the final accumulator, the remaining
queue, and the number of underflows recorded (0 or 1).  Each loop pass
first re-checks `len(pending) < needed_bytes`; a `get_nowait()` that
raises `queue.Empty` pads `missing = needed_bytes - len(pending)` zero
bytes and records one underflow (the `missing > 0` guard always holds
there, because the loop condition just found `pending` short). -/
def fillPending (needed : Nat) : List Nat → List (List Nat) →
    List Nat × List (List Nat) × Nat
  | pending, [] =>
    if pending.length < needed then
      (pending ++ List.replicate (needed - pending.length) 0, [], 1)
    else
      (pending, [], 0)
  | pending, c :: rest =>
    if pending.length < needed then
      fillPending needed (pending ++ c) rest
    else
      (pending, c :: rest, 0)

/-- One callback invocation: `(outdata, pending', queue', underflow_increment)`.
`outdata[:] = pending[:needed_bytes]` then `del pending[:needed_bytes]`. -/
def callback (pending : List Nat) (q : List (List Nat)) (frames bpf : Nat) :
    List Nat × List Nat × List (List Nat) × Nat :=
  let needed := frames * bpf
  let r := fillPending needed pending q
  (r.1.take needed, r.1.drop needed, r.2.1, r.2.2)

/-! ## Receiver configuration and startup prefill (`tone_udp_rx.py` main) -/

/-- `bytes_per_frame = INT16_BYTES * args.channels`. -/
def bytes_per_frame (channels : Nat) : Nat := 2 * channels

/-- `jitter_buffer_samples * bytes_per_frame`. -/
def target_buffer_bytes (jitter_buffer_samples channels : Nat) : Nat :=
  jitter_buffer_samples * bytes_per_frame channels

/-- `zero_chunk = b"\x00" * (bytes_per_frame * 256)`: the silence chunk size. -/
def zero_chunk_len (channels : Nat) : Nat := bytes_per_frame channels * 256

/-- The chunks produced by the prefill loop
(`while buffered_bytes < target_buffer_bytes: chunk_len = min(len(zero_chunk),
target_buffer_bytes - buffered_bytes); put(b"\x00" * chunk_len)`), indexed by
the remaining byte count `t`.  When `cs = 0` the source loop never makes
progress (it cannot happen in the program: `channels ≥ 1` is validated, so
`cs = bytes_per_frame * 256 ≥ 512`); this model returns `[]` in that dead
branch to stay total. -/
def prefillChunks (cs : Nat) : Nat → List (List Nat)
  | 0 => []
  | t + 1 =>
    let cl := min cs (t + 1)
    if h : cl = 0 then []
    else List.replicate cl 0 :: prefillChunks cs (t + 1 - cl)
termination_by t => t
decreasing_by
  simp only [cl] at h ⊢
  omega

/-- `queue.Queue(maxsize=64)`: capacity of the playback queue. -/
def QUEUE_CAPACITY : Nat := 64

/-- Run the prefill loop's sequence of unbounded blocking `put` calls into
the bounded queue while no consumer thread runs (the prefill happens before
`audio_thread_obj.start()`): each put appends when the queue has room and
never returns — modelled as `none` for the whole loop — when the queue is
already full. -/
def enqueueAll (chunks : List (List Nat)) (q : List (List Nat)) :
    Option (List (List Nat)) :=
  match chunks with
  | [] => some q
  | c :: rest =>
    if q.length < QUEUE_CAPACITY then enqueueAll rest (q ++ [c]) else none

/-! ## Helper lemmas -/

/-- `update` always records the new sequence number. -/
theorem update_last_seq (s : Stats) (seq plen : Nat) :
    (s.update seq plen).last_seq = some seq := by
  simp [Stats.update]

/-- Receiving exactly the expected next sequence number leaves the loss
counter unchanged. -/
theorem update_lost_of_expected (s : Stats) (ls plen : Nat) (h : s.last_seq = some ls) :
    (s.update ((ls + 1) % U32MOD) plen).lost_packets = s.lost_packets := by
  simp [Stats.update, h]

/-- Folding `update` over a gap-free run of packets starting right after a
recorded `last_seq` leaves `lost_packets` unchanged. -/
theorem runUpdates_lost_chain (pkts : List (Nat × Nat)) :
    ∀ (s : Stats) (ls : Nat), s.last_seq = some ls →
      List.Chain' (fun a b => b.1 = (a.1 + 1) % U32MOD) pkts →
      (∀ x ∈ pkts.head?, x.1 = (ls + 1) % U32MOD) →
      (s.runUpdates pkts).lost_packets = s.lost_packets := by
  induction pkts with
  | nil => intro s ls _ _ _; rfl
  | cons hd tl ih =>
    intro s ls hlast hchain hhead
    obtain ⟨q, pl⟩ := hd
    rw [List.chain'_cons'] at hchain
    have hq : q = (ls + 1) % U32MOD := by
      have := hhead (q, pl) rfl
      simpa using this
    show ((s.update q pl).runUpdates tl).lost_packets = s.lost_packets
    rw [ih (s.update q pl) q (update_last_seq s q pl) hchain.2
        (fun x hx => hchain.1 x hx)]
    rw [hq]
    exact update_lost_of_expected s ls pl hlast

/-! ## Claims -/

/-- C1.  `Stats.update(seq, payload_len)`: with no prior sequence recorded,
`lost_packets` is unchanged; with `last_seq = some ls`, writing
`expected = (ls + 1) mod 2^32`, the loss counter is unchanged when
`seq = expected` and grows by `(seq - expected) mod 2^32` otherwise; and in
every case `last_seq` becomes `seq`, the total and per-window received
counters grow by 1, and `total_bytes` grows by `payload_len`. -/
theorem C1_update_effect (s : Stats) (seq plen : Nat) :
    (s.last_seq = none → (s.update seq plen).lost_packets = s.lost_packets) ∧
    (∀ ls, s.last_seq = some ls →
      ((seq = (ls + 1) % U32MOD → (s.update seq plen).lost_packets = s.lost_packets) ∧
       (seq ≠ (ls + 1) % U32MOD →
         (s.update seq plen).lost_packets =
           s.lost_packets +
             (((seq : Int) - (((ls + 1) % U32MOD : Nat) : Int)) % (U32MOD : Int)).toNat))) ∧
    (s.update seq plen).last_seq = some seq ∧
    (s.update seq plen).total_received = s.total_received + 1 ∧
    (s.update seq plen).received_since_last_report = s.received_since_last_report + 1 ∧
    (s.update seq plen).total_bytes = s.total_bytes + plen := by
  rcases hls : s.last_seq with _ | ls₀
  · simp [Stats.update, hls]
  · by_cases hseq : seq = (ls₀ + 1) % U32MOD <;>
      simp [Stats.update, hls, hseq]

/-- Witness for C1 at the concrete state with `last_seq = some 5`,
receiving `seq = 8` with a 4-byte payload. -/
theorem C1_update_effect_witness :
    (((Stats.init 0).update 5 4).update 8 4).lost_packets =
      ((Stats.init 0).update 5 4).lost_packets +
        (((8 : Int) - (((5 + 1) % U32MOD : Nat) : Int)) % (U32MOD : Int)).toNat :=
  ((C1_update_effect ((Stats.init 0).update 5 4) 8 4).2.1 5 rfl).2 (by decide)

/-- C3.  Any gap-free run of updates (each seq the predecessor's successor
mod `2^32`, wraparound included) leaves a fresh tracker with
`lost_packets = 0`. -/
theorem C3_in_order_no_loss (now : Nat) (pkts : List (Nat × Nat))
    (h : List.Chain' (fun a b => b.1 = (a.1 + 1) % U32MOD) pkts) :
    ((Stats.init now).runUpdates pkts).lost_packets = 0 := by
  match pkts, h with
  | [], _ => rfl
  | (q, pl) :: tl, h =>
    rw [List.chain'_cons'] at h
    show (((Stats.init now).update q pl).runUpdates tl).lost_packets = 0
    rw [runUpdates_lost_chain tl _ q (update_last_seq _ q pl) h.2
        (fun x hx => h.1 x hx)]
    simp [Stats.init, Stats.update]

/-- Witness for C3 on a concrete gap-free run crossing the `2^32` wraparound. -/
theorem C3_in_order_no_loss_witness :
    ((Stats.init 0).runUpdates [(4294967295, 4), (0, 4), (1, 4)]).lost_packets = 0 :=
  C3_in_order_no_loss 0 [(4294967295, 4), (0, 4), (1, 4)]
    (by simp only [List.chain'_cons, List.chain'_singleton, and_true]; decide)

/-- C4 counterexample.  The claim says that with `last_seq = 5`, an update
with `seq = 8` increases `lost_packets` by exactly 3; on the code the
increase is `(8 - 6) mod 2^32 = 2` (the two missing packets 6 and 7), so
the claimed equation is false at this concrete input. -/
theorem C4_counterexample :
    ¬ ((((Stats.init 0).update 5 4).update 8 4).lost_packets =
        ((Stats.init 0).update 5 4).lost_packets + 3) := by decide

/-- C4 as amended.  With `last_seq = some 5`, an update with `seq = 8`
increases `lost_packets` by exactly 2 and sets `last_seq` to 8. -/
theorem C4_gap_of_two (s : Stats) (plen : Nat) (h : s.last_seq = some 5) :
    (s.update 8 plen).lost_packets = s.lost_packets + 2 ∧
    (s.update 8 plen).last_seq = some 8 := by
  refine ⟨?_, update_last_seq s 8 plen⟩
  simp [Stats.update, h, U32MOD]

/-- Witness for the amended C4 at a concrete tracker state. -/
theorem C4_gap_of_two_witness :
    (((Stats.init 0).update 5 4).update 8 4).lost_packets =
        ((Stats.init 0).update 5 4).lost_packets + 2 ∧
    (((Stats.init 0).update 5 4).update 8 4).last_seq = some 8 :=
  C4_gap_of_two ((Stats.init 0).update 5 4) 4 rfl

/-- C9.  A stats report zeroes exactly the per-window counters — the
received-since-last-report count (`Stats.report`) and, via
`PlaybackStats.snapshot`, the underflow count and max observed depth —
returning the pre-reset pair, while the cumulative `total_received`,
`lost_packets`, `total_bytes` and `last_seq` (and the tracker's creation
time) are unchanged. -/
theorem C9_report_resets (s : Stats) (now : Nat) (p : PlaybackStats) :
    (s.report now).received_since_last_report = 0 ∧
    p.snapshot.2.underflows = 0 ∧
    p.snapshot.2.max_depth = 0 ∧
    p.snapshot.1 = (p.underflows, p.max_depth) ∧
    (s.report now).total_received = s.total_received ∧
    (s.report now).lost_packets = s.lost_packets ∧
    (s.report now).total_bytes = s.total_bytes ∧
    (s.report now).last_seq = s.last_seq ∧
    (s.report now).start_time = s.start_time := by
  simp [Stats.report, PlaybackStats.snapshot]

/-- Big-endian u32 byte decomposition round-trips for values below `2^32`. -/
theorem unpackU32_u32be (n : Nat) (h : n < U32MOD) :
    unpackU32 (u32be n) = n := by
  simp only [unpackU32, u32be, U32MOD] at *
  omega

/-- C2.  The sender stamps `timestamp_us = time.time_ns() // 1000` — wall-clock
microseconds since the Unix epoch — into the third header field, but
`struct.pack(">III", ...)` only accepts values below `2^32`; for every
wall-clock instant from `2^32` microseconds after the epoch onwards
(i.e. any time after 1970-01-01T01:11:35Z) the stamped value overflows the
`u32` field and encoding fails, so the claim that encoding succeeds for
every such stamp is violated by the code at every realistic send time. -/
theorem C2_timestamp_pack_fails (seq ctr t_ns : Nat) (payload : List Nat)
    (h : 4294967296000 ≤ t_ns) :
    encode seq ctr (timestampUs t_ns) payload = none := by
  have hts : ¬ timestampUs t_ns < U32MOD := by
    simp only [timestampUs, U32MOD]
    omega
  by_cases hs : seq < U32MOD <;> by_cases hc : ctr < U32MOD <;>
    simp [encode, packHeader, packU32, hs, hc, hts]


/-- Witness for C2 at a realistic wall-clock instant (2025-10-12T00:00:00Z
in nanoseconds) with the default 1764-byte tone payload: the send fails. -/
theorem C2_timestamp_pack_fails_witness :
    encode 0 0 (timestampUs 1760227200000000000) (List.replicate 1764 0) = none :=
  C2_timestamp_pack_fails 0 0 1760227200000000000 (List.replicate 1764 0) (by decide)

/-- C5 counterexample.  The claimed round trip includes the empty payload,
but encoding `(0, 0, 0, [])` yields the bare 12-byte header, which the
receiver rejects as undersized (`len(packet) <= HEADER_LEN`), so decoding
does not return the tuple. -/
theorem C5_counterexample :
    encode 0 0 0 [] = some (List.replicate 12 0) ∧
    decode (List.replicate 12 0) = Except.error FormatError.undersized := by
  constructor <;> rfl

/-- C5 as amended.  For every `(seq, counter, timestamp, payload)` with each
header field below `2^32` and a NONEMPTY payload, decoding the encoded
bytes yields back the identical tuple; the empty payload is excluded
because its 12-byte datagram fails the receiver's undersized check. -/
theorem C5_round_trip (seq ctr ts : Nat) (payload : List Nat)
    (hs : seq < U32MOD) (hc : ctr < U32MOD) (ht : ts < U32MOD) (hp : payload ≠ []) :
    ∃ pkt, encode seq ctr ts payload = some pkt ∧
      decode pkt = Except.ok (seq, ctr, ts, payload) := by
  refine ⟨u32be seq ++ u32be ctr ++ u32be ts ++ payload, ?_, ?_⟩
  · simp [encode, packHeader, packU32, hs, hc, ht]
  · have hplen : 0 < payload.length := List.length_pos.mpr hp
    have hlen : ¬ ((u32be seq ++ u32be ctr ++ u32be ts ++ payload).length ≤ 12) := by
      simp only [u32be, List.cons_append, List.nil_append, List.length_append,
        List.length_cons]
      omega
    simp only [decode, if_neg hlen]
    show Except.ok
        (unpackU32 (u32be seq), unpackU32 (u32be ctr), unpackU32 (u32be ts), payload) =
      Except.ok (seq, ctr, ts, payload)
    rw [unpackU32_u32be seq hs, unpackU32_u32be ctr hc, unpackU32_u32be ts ht]

/-- Witness for the amended C5 on a concrete packet. -/
theorem C5_round_trip_witness :
    ∃ pkt, encode 1 2 3 [7, 8] = some pkt ∧
      decode pkt = Except.ok (1, 2, 3, [7, 8]) :=
  C5_round_trip 1 2 3 [7, 8] (by decide) (by decide) (by decide) (by decide)

/-- C8.  A datagram of length `≤ 12` fails decoding with the
undersized-packet error (the only error the decoder can produce) and is
skipped with the tracker state unchanged, while every longer datagram
decodes successfully and is folded into the tracker via `Stats.update`. -/
theorem C8_undersized_skip (st : Stats) (pkt : List Nat) (h : pkt.length ≤ 12) :
    decode pkt = Except.error FormatError.undersized ∧
    processPacket st pkt = st ∧
    (∀ pkt₂ : List Nat, 12 < pkt₂.length →
      ∃ s c t p, decode pkt₂ = Except.ok (s, c, t, p) ∧
        processPacket st pkt₂ = st.update s p.length) := by
  have hd : decode pkt = Except.error FormatError.undersized := by
    simp [decode, h]
  refine ⟨hd, ?_, ?_⟩
  · simp [processPacket, hd]
  · intro pkt₂ h₂
    have hd₂ : decode pkt₂ =
        Except.ok (unpackU32 (pkt₂.take 4), unpackU32 ((pkt₂.drop 4).take 4),
          unpackU32 ((pkt₂.drop 8).take 4), pkt₂.drop 12) := by
      simp [decode, Nat.not_le.mpr h₂]
    exact ⟨_, _, _, _, hd₂, by simp [processPacket, hd₂]⟩

/-- Witness for C8: a 12-byte datagram is rejected as undersized and leaves
a fresh tracker untouched. -/
theorem C8_undersized_skip_witness :
    decode (List.replicate 12 0) = Except.error FormatError.undersized ∧
    processPacket (Stats.init 0) (List.replicate 12 0) = Stats.init 0 := by
  have h := C8_undersized_skip (Stats.init 0) (List.replicate 12 0) (by decide)
  exact ⟨h.1, h.2.1⟩

/-- When even the whole queue cannot satisfy the request, the fill loop
drains everything, pads with zeros up to `needed`, and reports one
underflow. -/
theorem fillPending_of_short (needed : Nat) :
    ∀ (q : List (List Nat)) (pending : List Nat),
      (pending ++ q.flatten).length < needed →
      fillPending needed pending q =
        ((pending ++ q.flatten) ++
          List.replicate (needed - (pending ++ q.flatten).length) 0, [], 1) := by
  intro q
  induction q with
  | nil =>
    intro pending h
    simp only [List.flatten_nil, List.append_nil] at h ⊢
    simp [fillPending, h]
  | cons c rest ih =>
    intro pending h
    have hl : pending ++ (c :: rest).flatten = (pending ++ c) ++ rest.flatten := by
      simp [List.append_assoc]
    rw [hl] at h ⊢
    have hlt : pending.length < needed := by
      simp only [List.length_append] at h
      omega
    simp only [fillPending]
    rw [if_pos hlt]
    exact ih (pending ++ c) h

/-- When enough bytes are buffered, the fill loop reports no underflow,
ends with an accumulator of at least `needed` bytes, and conserves the
buffered byte stream. -/
theorem fillPending_of_enough (needed : Nat) :
    ∀ (q : List (List Nat)) (pending : List Nat),
      needed ≤ (pending ++ q.flatten).length →
      (fillPending needed pending q).2.2 = 0 ∧
      needed ≤ (fillPending needed pending q).1.length ∧
      (fillPending needed pending q).1 ++ (fillPending needed pending q).2.1.flatten =
        pending ++ q.flatten := by
  intro q
  induction q with
  | nil =>
    intro pending h
    simp only [List.flatten_nil, List.append_nil] at h
    have hnot : ¬ pending.length < needed := Nat.not_lt.mpr h
    simp [fillPending, hnot]
    exact h
  | cons c rest ih =>
    intro pending h
    by_cases hlt : pending.length < needed
    · have hl : pending ++ (c :: rest).flatten = (pending ++ c) ++ rest.flatten := by
        simp [List.append_assoc]
      rw [hl] at h
      simp only [fillPending, if_pos hlt]
      have hrec := ih (pending ++ c) h
      exact ⟨hrec.1, hrec.2.1, by rw [hrec.2.2, ← hl]⟩
    · have he : fillPending needed pending (c :: rest) = (pending, c :: rest, 0) := by
        simp only [fillPending]
        rw [if_neg hlt]
      rw [he]
      exact ⟨rfl, Nat.not_lt.mp hlt, rfl⟩

/-- C6.  For a callback requesting `N = frames * bytes_per_frame` bytes: if
the buffered data (accumulator plus queued chunks) holds fewer than `N`
bytes, the callback still delivers exactly `N` bytes — all the real data
followed by zeros — and records exactly one underflow; if enough is
buffered, it delivers exactly the first `N` buffered bytes and records no
underflow. -/
theorem C6_callback_exact (pending : List Nat) (q : List (List Nat)) (frames bpf : Nat) :
    ((pending ++ q.flatten).length < frames * bpf →
      (callback pending q frames bpf).1 =
        (pending ++ q.flatten) ++
          List.replicate (frames * bpf - (pending ++ q.flatten).length) 0 ∧
      (callback pending q frames bpf).1.length = frames * bpf ∧
      (callback pending q frames bpf).2.2.2 = 1) ∧
    (frames * bpf ≤ (pending ++ q.flatten).length →
      (callback pending q frames bpf).1 = (pending ++ q.flatten).take (frames * bpf) ∧
      (callback pending q frames bpf).1.length = frames * bpf ∧
      (callback pending q frames bpf).2.2.2 = 0) := by
  constructor
  · intro h
    have hf := fillPending_of_short (frames * bpf) q pending h
    have hlenfull :
        ((pending ++ q.flatten) ++
          List.replicate (frames * bpf - (pending ++ q.flatten).length) 0).length =
          frames * bpf := by
      have h' := h
      simp only [List.length_append] at h'
      simp only [List.length_append, List.length_replicate]
      omega
    refine ⟨?_, ?_, ?_⟩
    · simp only [callback, hf]
      exact List.take_of_length_le (le_of_eq hlenfull)
    · simp only [callback, hf]
      rw [List.take_of_length_le (le_of_eq hlenfull)]
      exact hlenfull
    · simp [callback, hf]
  · intro h
    obtain ⟨hu, hge, hcons⟩ := fillPending_of_enough (frames * bpf) q pending h
    refine ⟨?_, ?_, ?_⟩
    · simp only [callback]
      rw [← hcons, List.take_append_of_le_length hge]
    · simp only [callback, List.length_take]
      omega
    · simp only [callback]
      exact hu

/-- Witness for C6: a 4-byte request over 2 buffered bytes pads and counts
one underflow; a 3-byte request over 6 buffered bytes delivers real data
with no underflow. -/
theorem C6_callback_exact_witness :
    (callback [1] [[2]] 4 1).1 =
      ([1] ++ [[2]].flatten) ++
        List.replicate (4 * 1 - (([1] : List Nat) ++ [[2]].flatten).length) 0 ∧
    (callback [1] [[2]] 4 1).2.2.2 = 1 ∧
    (callback [1, 2] [[3, 4], [5, 6]] 3 1).1 =
      (([1, 2] : List Nat) ++ [[3, 4], [5, 6]].flatten).take (3 * 1) ∧
    (callback [1, 2] [[3, 4], [5, 6]] 3 1).2.2.2 = 0 := by
  have h1 := (C6_callback_exact [1] [[2]] 4 1).1 (by decide)
  have h2 := (C6_callback_exact [1, 2] [[3, 4], [5, 6]] 3 1).2 (by decide)
  exact ⟨h1.1, h1.2.2, h2.1, h2.2.2⟩

/-- Every byte the prefill loop enqueues is zero, and together the chunks
hold exactly the target byte count. -/
theorem prefillChunks_flatten (cs : Nat) (hcs : 0 < cs) :
    ∀ t, (prefillChunks cs t).flatten = List.replicate t 0 := by
  intro t
  induction t using Nat.strong_induction_on with
  | _ t ih =>
    cases t with
    | zero => simp [prefillChunks]
    | succ t' =>
      have hcl : ¬ (min cs (t' + 1) = 0) := by omega
      have hpos : 0 < min cs (t' + 1) := by omega
      have hle : min cs (t' + 1) ≤ t' + 1 := Nat.min_le_right _ _
      simp only [prefillChunks]
      rw [dif_neg hcl]
      rw [List.flatten_cons, ih (t' + 1 - min cs (t' + 1)) (by omega)]
      rw [← List.replicate_add]
      congr 1
      omega

/-- The prefill loop enqueues exactly `ceil(t / cs)` chunks. -/
theorem prefillChunks_length (cs : Nat) (hcs : 0 < cs) :
    ∀ t, (prefillChunks cs t).length = (t + cs - 1) / cs := by
  intro t
  induction t using Nat.strong_induction_on with
  | _ t ih =>
    cases t with
    | zero =>
      simp only [prefillChunks, List.length_nil, Nat.zero_add]
      rw [Nat.div_eq_of_lt (by omega)]
    | succ t' =>
      have hcl : ¬ (min cs (t' + 1) = 0) := by omega
      simp only [prefillChunks]
      rw [dif_neg hcl]
      rw [List.length_cons, ih (t' + 1 - min cs (t' + 1)) (by omega)]
      rcases Nat.le_total cs (t' + 1) with hle | hle
      · rw [Nat.min_eq_left hle]
        have e1 : t' + 1 - cs + cs - 1 = t' := by omega
        have e2 : t' + 1 + cs - 1 = t' + cs := by omega
        rw [e1, e2, Nat.add_div_right t' hcs]
      · rw [Nat.min_eq_right hle]
        have e1 : t' + 1 - (t' + 1) = 0 := by omega
        have e2 : t' + 1 + cs - 1 = t' + cs := by omega
        rw [e1, e2]
        simp only [prefillChunks, List.length_nil, Nat.zero_add]
        rw [Nat.add_div_right t' hcs, Nat.div_eq_of_lt (by omega),
          Nat.div_eq_of_lt (by omega)]

/-- A prefill run of blocking puts that completes leaves the queue holding
exactly the enqueued chunks in order. -/
theorem enqueueAll_some (chunks : List (List Nat)) :
    ∀ (q res : List (List Nat)), enqueueAll chunks q = some res → res = q ++ chunks := by
  induction chunks with
  | nil =>
    intro q res h
    simp only [enqueueAll, Option.some.injEq] at h
    simp [← h]
  | cons c rest ih =>
    intro q res h
    simp only [enqueueAll] at h
    by_cases hq : q.length < QUEUE_CAPACITY
    · rw [if_pos hq] at h
      have := ih (q ++ [c]) res h
      simpa [List.append_assoc] using this
    · rw [if_neg hq] at h
      exact absurd h (by simp)

/-- The run of blocking puts returns (rather than blocking forever on a
full queue with no consumer) exactly when the chunks fit the remaining
capacity. -/
theorem enqueueAll_isSome (chunks : List (List Nat)) :
    ∀ q : List (List Nat), q.length ≤ QUEUE_CAPACITY →
      ((enqueueAll chunks q).isSome = true ↔
        chunks.length + q.length ≤ QUEUE_CAPACITY) := by
  induction chunks with
  | nil =>
    intro q hq
    simpa [enqueueAll] using hq
  | cons c rest ih =>
    intro q hq
    simp only [enqueueAll]
    by_cases hlt : q.length < QUEUE_CAPACITY
    · rw [if_pos hlt]
      rw [ih (q ++ [c])
        (by simp only [List.length_append, List.length_cons, List.length_nil]; omega)]
      simp only [List.length_append, List.length_cons, List.length_nil]
      omega
    · rw [if_neg hlt]
      simp only [Option.isSome_none, Bool.false_eq_true, false_iff, List.length_cons]
      omega

/-- C7.  If the startup prefill completes, the jitter buffer holds chunks
whose concatenation is exactly `target_buffer_bytes = jitter_buffer_samples
* bytes_per_frame` zero bytes — every buffered byte is zero and the total
is exact. -/
theorem C7_prefill_all_zero (jbs channels : Nat) (hch : 0 < channels)
    (q : List (List Nat))
    (hq : enqueueAll (prefillChunks (zero_chunk_len channels)
            (target_buffer_bytes jbs channels)) [] = some q) :
    q.flatten = List.replicate (target_buffer_bytes jbs channels) 0 ∧
    q.flatten.length = target_buffer_bytes jbs channels := by
  have hcs : 0 < zero_chunk_len channels := by
    simp only [zero_chunk_len, bytes_per_frame]
    omega
  have hqe : q = prefillChunks (zero_chunk_len channels) (target_buffer_bytes jbs channels) := by
    have := enqueueAll_some _ _ _ hq
    simpa using this
  rw [hqe, prefillChunks_flatten _ hcs]
  simp

/-- Witness for C7 with one channel and a one-sample jitter depth: the
prefilled queue is a single two-byte silence chunk. -/
theorem C7_prefill_all_zero_witness :
    ([List.replicate 2 0] : List (List Nat)).flatten =
      List.replicate (target_buffer_bytes 1 1) 0 ∧
    ([List.replicate 2 0] : List (List Nat)).flatten.length =
      target_buffer_bytes 1 1 :=
  C7_prefill_all_zero 1 1 (by decide) [List.replicate 2 0]
    (by simp [zero_chunk_len, bytes_per_frame, target_buffer_bytes, prefillChunks,
          enqueueAll, QUEUE_CAPACITY])

/-- C10.  The startup prefill loop's blocking puts all return — rather than
blocking forever on the full 64-entry queue whose consumer thread has not
started — exactly when the silence fits the queue, i.e. exactly when
`jitter_buffer_samples ≤ 16384` (64 chunks of 256 frames each). -/
theorem C10_prefill_termination (jbs channels : Nat) (hch : 0 < channels) :
    ((enqueueAll (prefillChunks (zero_chunk_len channels)
        (target_buffer_bytes jbs channels)) []).isSome = true ↔
      jbs ≤ 16384) := by
  have hcs : 0 < zero_chunk_len channels := by
    simp only [zero_chunk_len, bytes_per_frame]
    omega
  rw [enqueueAll_isSome _ [] (by simp [QUEUE_CAPACITY])]
  simp only [List.length_nil, Nat.add_zero]
  rw [prefillChunks_length _ hcs]
  have key : (target_buffer_bytes jbs channels + zero_chunk_len channels - 1) /
        zero_chunk_len channels ≤ QUEUE_CAPACITY ↔
      target_buffer_bytes jbs channels ≤ QUEUE_CAPACITY * zero_chunk_len channels := by
    simp only [QUEUE_CAPACITY]
    constructor
    · intro h
      have h65 : (target_buffer_bytes jbs channels + zero_chunk_len channels - 1) /
          zero_chunk_len channels < 65 := by omega
      have := (Nat.div_lt_iff_lt_mul hcs).mp h65
      omega
    · intro h
      have hlt : target_buffer_bytes jbs channels + zero_chunk_len channels - 1 <
          65 * zero_chunk_len channels := by omega
      have hdiv : (target_buffer_bytes jbs channels + zero_chunk_len channels - 1) /
          zero_chunk_len channels < 65 := (Nat.div_lt_iff_lt_mul hcs).mpr hlt
      omega
  rw [key]
  simp only [target_buffer_bytes, zero_chunk_len, bytes_per_frame, QUEUE_CAPACITY]
  constructor
  · intro h
    have hb : 0 < 2 * channels := by omega
    have h' : jbs * (2 * channels) ≤ 16384 * (2 * channels) := by
      calc jbs * (2 * channels) ≤ 64 * (2 * channels * 256) := h
        _ = 16384 * (2 * channels) := by ring
    exact Nat.le_of_mul_le_mul_right h' hb
  · intro h
    calc jbs * (2 * channels) ≤ 16384 * (2 * channels) := Nat.mul_le_mul_right _ h
      _ = 64 * (2 * channels * 256) := by ring

/-- Witness for C10: one channel at the boundary depth 16384 samples —
the prefill completes. -/
theorem C10_prefill_termination_witness :
    (enqueueAll (prefillChunks (zero_chunk_len 1) (target_buffer_bytes 16384 1))
      []).isSome = true :=
  (C10_prefill_termination 16384 1 (by decide)).mpr (by decide)

end ToneUdp
